import Mathlib

/-!
Verification development for the leveldown N-API binding
(`src/napi/leveldown.cc`): a shallow embedding of the Database /
Iterator (cursor) layer and proofs about its range-scan, batching,
error-handling and lifecycle-coordination behaviour.

Keys and values are byte sequences, modelled as `List Nat`.  The
underlying LevelDB engine is modelled, per its documented collaborator
contract, as a sorted association list of entries together with an
iterator position; `std::string::compare` / `leveldb::Slice` comparison
is lexicographic byte comparison.
-/

namespace Leveldown

/-- Byte sequences: keys and values crossing the boundary. -/
abbrev Bytes := List Nat

/-- Lexicographic byte comparison, the semantics of
`std::string::compare` restricted to its sign. -/
def bcmp : Bytes → Bytes → Ordering
  | [], [] => .eq
  | [], _ :: _ => .lt
  | _ :: _, [] => .gt
  | a :: as, b :: bs =>
    if a < b then .lt else if b < a then .gt else bcmp as bs

/-- The engine's entry table: the snapshot contents a cursor scans,
in key order.  An iterator position is an index into it, `none` when
the iterator is invalid (`Valid() == false`). -/
abbrev Entries := List (Bytes × Bytes)

/-- `leveldb::Iterator::Seek`: position at the first entry whose key is
not below the target, invalid when every key is below it. -/
def seekPos (entries : Entries) (target : Bytes) : Option Nat :=
  entries.findIdx? (fun e => bcmp e.1 target ≠ .lt)

/-- `leveldb::Iterator::SeekToFirst`. -/
def seekToFirst (entries : Entries) : Option Nat :=
  if entries.isEmpty then none else some 0

/-- `leveldb::Iterator::SeekToLast`. -/
def seekToLast (entries : Entries) : Option Nat :=
  if entries.isEmpty then none else some (entries.length - 1)

/-- `leveldb::Iterator::Next`: step forward, invalid past the last
entry. -/
def nextPos (entries : Entries) : Option Nat → Option Nat
  | none => none
  | some i => if i + 1 < entries.length then some (i + 1) else none

/-- `leveldb::Iterator::Prev`: step backward, invalid before the first
entry. -/
def prevPos : Option Nat → Option Nat
  | none => none
  | some 0 => none
  | some (i + 1) => some i

/-- The entry at a position, `none` when the position is invalid. -/
def entryAt (entries : Entries) : Option Nat → Option (Bytes × Bytes)
  | none => none
  | some i => entries[i]?

/-- The `Iterator` struct of `leveldown.cc`: range options, batch
budget, the lazily created engine iterator (`hasDbIter` / `pos`), the
lifetime counters and the lifecycle flags, including the deferred
end-worker slot (`endWorkerStored` models `endWorker_ != NULL`) and
whether the snapshot has been released by `IteratorEnd`. -/
structure Iter where
  start_ : Option Bytes
  end_ : Option Bytes
  reverse_ : Bool
  keys_ : Bool
  values_ : Bool
  limit_ : Int
  lt_ : Option Bytes
  lte_ : Option Bytes
  gt_ : Option Bytes
  gte_ : Option Bytes
  keyAsBuffer_ : Bool
  valueAsBuffer_ : Bool
  highWaterMark_ : Nat
  hasDbIter : Bool
  pos : Option Nat
  count_ : Int
  seeking_ : Bool
  landed_ : Bool
  nexting_ : Bool
  ended_ : Bool
  endWorkerStored : Bool
  snapshotReleased : Bool
  deriving Repr, DecidableEq

/-- `Iterator::GetIterator`: on first use, create the engine iterator
and run the seek-then-correct positioning; afterwards report `false`
and change nothing. -/
def getIterator (entries : Entries) (it : Iter) : Iter × Bool :=
  if it.hasDbIter then (it, false)
  else
    let p0 : Option Nat :=
      match it.start_ with
      | some s =>
        let p := seekPos entries s
        if it.reverse_ then
          let p1 : Option Nat :=
            match entryAt entries p with
            | none => seekToLast entries
            | some (k, _) =>
              match it.lt_ with
              | some l => if bcmp l k ≠ .gt then prevPos p else p
              | none =>
                match it.lte_ with
                | some l => if bcmp l k = .lt then prevPos p else p
                | none => if bcmp s k ≠ .eq then prevPos p else p
          match it.lt_, entryAt entries p1 with
          | some l, some (k, _) => if bcmp l k ≠ .gt then prevPos p1 else p1
          | _, _ => p1
        else
          match it.gt_, entryAt entries p with
          | some g, some (k, _) => if bcmp g k = .eq then nextPos entries p else p
          | _, _ => p
      | none => if it.reverse_ then seekToLast entries else seekToFirst entries
    ({ it with hasDbIter := true, pos := p0 }, true)

/-- The `end_` clause of the acceptance test in `Iterator::Read`:
pass when `end_` is absent, or `end_->compare(key) <= 0` on a reverse
scan, or `end_->compare(key) >= 0` on a forward scan. -/
def passEnd (it : Iter) (k : Bytes) : Bool :=
  match it.end_ with
  | none => true
  | some e =>
    if it.reverse_ then bcmp e k ≠ .gt else bcmp e k ≠ .lt

/-- The `lt_` / `lte_` clause of the acceptance test in
`Iterator::Read` (`lt_` takes precedence when both are given). -/
def passLtLte (it : Iter) (k : Bytes) : Bool :=
  match it.lt_ with
  | some l => bcmp l k = .gt
  | none =>
    match it.lte_ with
    | some l => bcmp l k ≠ .lt
    | none => true

/-- The `gt_` / `gte_` clause of the acceptance test in
`Iterator::Read` (`gt_` takes precedence when both are given). -/
def passGtGte (it : Iter) (k : Bytes) : Bool :=
  match it.gt_ with
  | some g => bcmp g k = .lt
  | none =>
    match it.gte_ with
    | some g => bcmp g k ≠ .gt
    | none => true

/-- The positioning half of `Iterator::Read`: create the engine
iterator on first use, otherwise advance one step (`Prev` on reverse,
`Next` otherwise) unless `seeking_` suppresses it; then clear
`seeking_`. -/
def positionStep (entries : Entries) (it : Iter) : Iter :=
  let step := getIterator entries it
  let it1 := step.1
  let it2 :=
    if ¬step.2 ∧ ¬it1.seeking_ then
      { it1 with pos := if it1.reverse_ then prevPos it1.pos else nextPos entries it1.pos }
    else it1
  { it2 with seeking_ := false }

/-- `Iterator::Read`: advance (unless this call created the iterator or
`seeking_` is set), then, at a valid position, apply limit (counting
the position), end, lt/lte and gt/gte; on acceptance emit the pair,
each side blanked when `keys_` / `values_` is off. -/
def read (entries : Entries) (it : Iter) : Iter × Option (Bytes × Bytes) :=
  let it3 := positionStep entries it
  match entryAt entries it3.pos with
  | none => (it3, none)
  | some (k, v) =>
    let limStep : Iter × Bool :=
      if it3.limit_ < 0 then (it3, true)
      else ({ it3 with count_ := it3.count_ + 1 },
            decide (it3.count_ + 1 ≤ it3.limit_))
    let it4 := limStep.1
    if limStep.2 ∧ passEnd it4 k ∧ passLtLte it4 k ∧ passGtGte it4 k then
      (it4, some ((if it4.keys_ then k else []), (if it4.values_ then v else [])))
    else (it4, none)

/-- Total key+value byte length of a batch, the quantity `Read`'s
caller accumulates against `highWaterMark_`. -/
def totalSize (ps : List (Bytes × Bytes)) : Nat :=
  (ps.map (fun p => p.1.length + p.2.length)).sum

/-- The `while (true)` loop of `Iterator::IteratorNext`, fuelled.
Returns the iterator, the accumulated batch and the `ok` flag the
source returns (`false` = range exhausted). -/
def iteratorNextLoop (entries : Entries) :
    Nat → Iter → Nat → List (Bytes × Bytes) → Iter × List (Bytes × Bytes) × Bool
  | 0, it, _, acc => (it, acc, false)
  | fuel + 1, it, size, acc =>
    match read entries it with
    | (it', none) => (it', acc, false)
    | (it', some (k, v)) =>
      let acc' := acc ++ [(k, v)]
      if ¬it'.landed_ then ({ it' with landed_ := true }, acc', true)
      else
        let size' := size + k.length + v.length
        if size' > it'.highWaterMark_ then (it', acc', true)
        else iteratorNextLoop entries fuel it' size' acc'

/-- One advance call (`Iterator::IteratorNext` as run by a
`NextWorker`), with enough fuel for any single batch. -/
def nextResult (entries : Entries) (it : Iter) : Iter × List (Bytes × Bytes) × Bool :=
  iteratorNextLoop entries (entries.length + 2) it 0 []

/-- The third completion argument of `NextWorker::HandleOKCallback`
(`napi_get_boolean(env_, !ok_)`): the caller-visible "range exhausted"
flag is the negation of the value `IteratorNext` returned. -/
def advanceExhaustedFlag (r : Iter × List (Bytes × Bytes) × Bool) : Bool :=
  !r.2.2

/-- The iterator state after running `Read` until its first failure:
where a maximal batch leaves the cursor. -/
def readEndIter (entries : Entries) : Nat → Iter → Iter
  | 0, it => it
  | fuel + 1, it =>
    match read entries it with
    | (it', some _) => readEndIter entries fuel it'
    | (it', none) => it'

/-- The pairs successive `Read` calls would still emit before first
reporting failure: the remaining range as the code sees it. -/
def readSeq (entries : Entries) : Nat → Iter → List (Bytes × Bytes)
  | 0, _ => []
  | fuel + 1, it =>
    match read entries it with
    | (it', some p) => p :: readSeq entries fuel it'
    | (_, none) => []

/-- Whole-lifetime scan: repeat advance calls until one reports the
range exhausted, concatenating the batches. -/
def drain (entries : Entries) : Nat → Iter → List (Bytes × Bytes)
  | 0, _ => []
  | fuel + 1, it =>
    let r := nextResult entries it
    if r.2.2 then r.2.1 ++ drain entries fuel r.1 else r.2.1

/-! ## Option parsing (`NAPI_METHOD(iterator)`) -/

/-- A host-runtime value as the binding classifies it: a UTF-8 string,
a byte buffer, or anything else (number, object, null, ...). -/
inductive NapiValue where
  | str (bytes : Bytes)
  | buf (bytes : Bytes)
  | other
  deriving Repr, DecidableEq

/-- `IsString(value) || IsBuffer(value)`. -/
def isStringOrBuffer : NapiValue → Bool
  | .str _ => true
  | .buf _ => true
  | .other => false

/-- `StringOrBufferLength`: the byte length, 0 for anything else. -/
def stringOrBufferLength : NapiValue → Nat
  | .str bytes => bytes.length
  | .buf bytes => bytes.length
  | .other => 0

/-- `LD_STRING_OR_BUFFER_TO_COPY`: the copied bytes of a string or
buffer. -/
def napiBytes : NapiValue → Bytes
  | .str bytes => bytes
  | .buf bytes => bytes
  | .other => []

/-- One range-bound option as handled by `NAPI_METHOD(iterator)`:
present and a string/buffer of positive length, or treated as absent. -/
def extractBound (o : Option NapiValue) : Option Bytes :=
  match o with
  | none => none
  | some v =>
    if isStringOrBuffer v ∧ stringOrBufferLength v > 0 then some (napiBytes v)
    else none

/-- The options object passed to `createCursor`, after the boolean and
numeric properties have been marshalled (a host-runtime concern); the
six range bounds are kept as raw host values, `none` when the property
is absent. -/
structure CursorOptions where
  reverse : Bool
  keys : Bool
  values : Bool
  fillCache : Bool
  keyAsBuffer : Bool
  valueAsBuffer : Bool
  limit : Int
  highWaterMark : Nat
  start : Option NapiValue
  end_ : Option NapiValue
  lt : Option NapiValue
  lte : Option NapiValue
  gt : Option NapiValue
  gte : Option NapiValue
  deriving Repr, DecidableEq

/-- A bound replaces the current `start` slice when it was accepted,
as each bound block of `NAPI_METHOD(iterator)` does under its
direction guard. -/
def overrideStart (b s : Option Bytes) : Option Bytes :=
  match b with
  | some x => some x
  | none => s

/-- The `start` slice after the override chain of
`NAPI_METHOD(iterator)`: `lt`, then `lte` replace it on a reverse
scan, `gt`, then `gte` replace it on a forward scan. -/
def resolveStart (o : CursorOptions) : Option Bytes :=
  let s0 := extractBound o.start
  let s1 := if o.reverse then overrideStart (extractBound o.lt) s0 else s0
  let s2 := if o.reverse then overrideStart (extractBound o.lte) s1 else s1
  let s3 := if ¬o.reverse then overrideStart (extractBound o.gt) s2 else s2
  if ¬o.reverse then overrideStart (extractBound o.gte) s3 else s3

/-- `NAPI_METHOD(iterator)`: construct the `Iterator` struct from the
options object (id allocation and registry insertion modelled on the
Database side). -/
def makeIterator (o : CursorOptions) : Iter :=
  { start_ := resolveStart o
    end_ := extractBound o.end_
    reverse_ := o.reverse
    keys_ := o.keys
    values_ := o.values
    limit_ := o.limit
    lt_ := extractBound o.lt
    lte_ := extractBound o.lte
    gt_ := extractBound o.gt
    gte_ := extractBound o.gte
    keyAsBuffer_ := o.keyAsBuffer
    valueAsBuffer_ := o.valueAsBuffer
    highWaterMark_ := o.highWaterMark
    hasDbIter := false
    pos := none
    count_ := 0
    seeking_ := false
    landed_ := false
    nexting_ := false
    ended_ := false
    endWorkerStored := false
    snapshotReleased := false }

/-! ## Cursor lifecycle (`iterator_end`, `CheckEndCallback`,
`iterator_next`) -/

/-- Outcome of one `NAPI_METHOD` call on an iterator: the updated
iterator, whether a worker object was created, and whether a worker
was queued during the call. -/
structure CallResult where
  it : Iter
  workerCreated : Bool
  workerQueued : Bool
  deriving Repr, DecidableEq

/-- `NAPI_METHOD(iterator_end)`: on a live iterator, create the
`EndWorker`, set `ended_`, and either queue the worker now or park it
in `endWorker_` while a next is in flight; on an ended iterator, do
nothing. -/
def iteratorEndCall (it : Iter) : CallResult :=
  if ¬it.ended_ then
    let it1 := { it with ended_ := true }
    if it1.nexting_ then ⟨{ it1 with endWorkerStored := true }, true, false⟩
    else ⟨it1, true, true⟩
  else ⟨it, false, false⟩

/-- `CheckEndCallback`, invoked from `NextWorker::HandleOKCallback`
(line 1252) — that is, only on a successfully delivered advance
completion: clear `nexting_` and queue the parked end worker if there
is one. Returns whether an end worker was queued. -/
def checkEndCallback (it : Iter) : Iter × Bool :=
  let it1 := { it with nexting_ := false }
  if it1.endWorkerStored then ({ it1 with endWorkerStored := false }, true)
  else (it1, false)

/-- `NAPI_METHOD(iterator_next)`: on an ended iterator, return
undefined without touching anything; otherwise create and queue a
`NextWorker` and set `nexting_`. -/
def iteratorNextCall (it : Iter) : CallResult :=
  if it.ended_ then ⟨it, false, false⟩
  else ⟨{ it with nexting_ := true }, true, true⟩

/-- `EndWorker::DoExecute` → `Iterator::IteratorEnd`: destroy the
engine iterator and release the snapshot.  Only a queued end worker
ever runs this. -/
def endWorkerExecute (it : Iter) : Iter :=
  { it with hasDbIter := false, pos := none, snapshotReleased := true }

/-! ## Database close coordination (`db_close`,
`Database::ReleaseIterator`) -/

/-- The close-relevant slice of the `Database` struct: the registered
iterator ids, whether `pendingCloseWorker_` holds a worker, and
whether a `CloseWorker` has been queued. -/
structure DbState where
  iterators : List Nat
  pendingClose : Bool
  closeQueued : Bool
  deriving Repr, DecidableEq

/-- `NAPI_METHOD(db_close)`: construct a `CloseWorker` and queue it.
The registry and the pending-close slot are not consulted. -/
def dbCloseCall (db : DbState) : DbState :=
  { db with closeQueued := true }

/-- `Database::ReleaseIterator`: erase the id; if the registry is now
empty and a pending close worker exists, queue it and clear the
slot. -/
def releaseIterator (db : DbState) (id : Nat) : DbState :=
  let db1 := { db with iterators := db.iterators.erase id }
  if db1.iterators.isEmpty ∧ db1.pendingClose then
    { db1 with pendingClose := false, closeQueued := true }
  else db1

/-! ## Engine status and the get pipeline (`GetWorker`,
`BaseWorker::DoComplete`) -/

/-- `leveldb::Status` per the collaborator contract: ok, not-found,
or another failure kind, each failure carrying a human-readable
message (a character sequence). -/
inductive Status where
  | ok
  | notFound (msg : List Char)
  | corruption (msg : List Char)
  | notSupported (msg : List Char)
  | invalidArgument (msg : List Char)
  | ioError (msg : List Char)
  deriving Repr, DecidableEq

/-- `leveldb::Status::ok()`. -/
def Status.isOk : Status → Bool
  | .ok => true
  | _ => false

/-- The engine message text a failure carries. -/
def Status.msgText : Status → List Char
  | .ok => []
  | .notFound m => m
  | .corruption m => m
  | .notSupported m => m
  | .invalidArgument m => m
  | .ioError m => m

/-- `leveldb::Status::ToString()`: a kind-identifying tag followed by
the message. -/
def statusToString : Status → List Char
  | .ok => "OK".data
  | .notFound m => "NotFound: ".data ++ m
  | .corruption m => "Corruption: ".data ++ m
  | .notSupported m => "Not implemented: ".data ++ m
  | .invalidArgument m => "Invalid argument: ".data ++ m
  | .ioError m => "IO error: ".data ++ m

/-- `DB::Get` against the modelled entry table: the stored value on a
hit, `Status::NotFound` (empty message, as leveldb's memtable/version
lookup reports it) on a miss. -/
def engineGet (entries : Entries) (key : Bytes) : Status × Bytes :=
  match entries.find? (fun e => e.1 = key) with
  | some e => (.ok, e.2)
  | none => (.notFound [], [])

/-- A completion as `BaseWorker::DoComplete` delivers it: the OK
payload through `HandleOKCallback`, or an error object built from
`Status::ToString()`. -/
def workerComplete (status : Status) (okResult : α) : Except (List Char) α :=
  if status.isOk then .ok okResult else .error (statusToString status)

/-- A value as materialized for the host runtime: a buffer copy or a
UTF-8 string, per the relevant `asBuffer` flag. -/
inductive JsVal where
  | buf (bytes : Bytes)
  | str (bytes : Bytes)
  | empty
  deriving Repr, DecidableEq

/-- Key/value materialization used by `GetWorker::HandleOKCallback`
and `NextWorker::HandleOKCallback`. -/
def mkReturnValue (asBuffer : Bool) (bytes : Bytes) : JsVal :=
  if asBuffer then .buf bytes else .str bytes

/-- The whole get pipeline: `GetWorker::DoExecute` stores the engine
status, `DoComplete` errors on any non-ok status, and
`GetWorker::HandleOKCallback` materializes the value. -/
def getComplete (entries : Entries) (key : Bytes) (asBuffer : Bool) :
    Except (List Char) JsVal :=
  let r := engineGet entries key
  workerComplete r.1 (mkReturnValue asBuffer r.2)

/-! ## Advance Task execution and completion dispatch
(`NextWorker::DoExecute`, `BaseWorker::DoComplete`) -/

/-- `NextWorker::DoExecute` (leveldown.cc 1215-1220): run
`IteratorNext`; when it reports exhaustion (`ok_ == false`), capture
the engine iterator's status (`Iterator::IteratorStatus`), supplied
here as the collaborator input `iterStatus`; otherwise the Task's
status stays the default-constructed ok. Returns the batch outcome
and the Task status. -/
def nextWorkerDoExecute (entries : Entries) (iterStatus : Status) (it : Iter) :
    (Iter × List (Bytes × Bytes) × Bool) × Status :=
  let r := nextResult entries it
  (r, if r.2.2 then .ok else iterStatus)

/-- Completion delivery for a `NextWorker` (`BaseWorker::DoComplete`,
lines 89-110): only an ok status reaches `HandleOKCallback`, whose
cleanup step (`localCallback_`, line 1252) is `CheckEndCallback`; an
errored completion is delivered through the error branch and the
local callback never runs, so the cursor's flags are untouched.
Returns the cursor after delivery and whether an end worker was
queued during it. -/
def nextWorkerDoComplete (status : Status) (it : Iter) : Iter × Bool :=
  if status.isOk then checkEndCallback it else (it, false)

/-- One advance Task end to end: execute the batch off-context, then
deliver its completion on-context. -/
def nextWorkerRun (entries : Entries) (iterStatus : Status) (it : Iter) : Iter × Bool :=
  let e := nextWorkerDoExecute entries iterStatus it
  nextWorkerDoComplete e.2 e.1.1

/-! ## Advance completion (`NextWorker::HandleOKCallback`) -/

/-- One pass of the result-array loop in
`NextWorker::HandleOKCallback`: place pair `idx`'s key at
`arraySize - idx * 2 - 1` and its value at `arraySize - idx * 2 - 2`
(`arraySize = 2 * result.length`). -/
def fillCell (keyAsBuffer valueAsBuffer : Bool) (result : List (Bytes × Bytes))
    (arr : List JsVal) (idx : Nat) : List JsVal :=
  match result[idx]? with
  | some (k, v) =>
    (arr.set (2 * result.length - idx * 2 - 1) (mkReturnValue keyAsBuffer k)).set
      (2 * result.length - idx * 2 - 2) (mkReturnValue valueAsBuffer v)
  | none => arr

/-- The result array built by `NextWorker::HandleOKCallback`: an array
of length `2 * n`, filled by the source's loop placing pair `idx`'s
key at `2n - 2*idx - 1` and its value at `2n - 2*idx - 2`. -/
def handleOKArray (keyAsBuffer valueAsBuffer : Bool)
    (result : List (Bytes × Bytes)) : List JsVal :=
  (List.range result.length).foldl (fillCell keyAsBuffer valueAsBuffer result)
    (List.replicate (2 * result.length) JsVal.empty)

/-! ## Basic lemmas -/

/-- Byte comparison is antisymmetric in the `Ordering.swap` sense,
matching `std::string::compare`'s sign flip under argument swap. -/
theorem bcmp_swap (a : Bytes) : ∀ b : Bytes, bcmp b a = (bcmp a b).swap := by
  induction a with
  | nil => intro b; cases b <;> simp [bcmp, Ordering.swap]
  | cons x xs ih =>
    intro b
    cases b with
    | nil => simp [bcmp, Ordering.swap]
    | cons y ys =>
      simp only [bcmp]
      rcases Nat.lt_trichotomy x y with h | h | h
      · simp [h, Nat.lt_asymm h, Nat.ne_of_lt h, Ordering.swap]
      · subst h
        simp [Nat.lt_irrefl, ih ys]
      · simp [h, Nat.lt_asymm h, Ordering.swap]

/-- The scan-static part of an `Iterator`: every field `Read` leaves
untouched. -/
structure Statics where
  start_ : Option Bytes
  end_ : Option Bytes
  reverse_ : Bool
  keys_ : Bool
  values_ : Bool
  limit_ : Int
  lt_ : Option Bytes
  lte_ : Option Bytes
  gt_ : Option Bytes
  gte_ : Option Bytes
  keyAsBuffer_ : Bool
  valueAsBuffer_ : Bool
  highWaterMark_ : Nat
  landed_ : Bool
  nexting_ : Bool
  ended_ : Bool
  endWorkerStored : Bool
  snapshotReleased : Bool
  deriving Repr, DecidableEq

/-- Projection onto the scan-static fields. -/
def Iter.statics (it : Iter) : Statics :=
  ⟨it.start_, it.end_, it.reverse_, it.keys_, it.values_, it.limit_,
   it.lt_, it.lte_, it.gt_, it.gte_, it.keyAsBuffer_, it.valueAsBuffer_,
   it.highWaterMark_, it.landed_, it.nexting_, it.ended_,
   it.endWorkerStored, it.snapshotReleased⟩

theorem getIterator_statics (entries : Entries) (it : Iter) :
    (getIterator entries it).1.statics = it.statics := by
  unfold getIterator
  split <;> rfl

theorem getIterator_count (entries : Entries) (it : Iter) :
    (getIterator entries it).1.count_ = it.count_ := by
  unfold getIterator
  split <;> rfl

theorem positionStep_statics (entries : Entries) (it : Iter) :
    (positionStep entries it).statics = it.statics := by
  have h1 := getIterator_statics entries it
  unfold positionStep
  dsimp only
  split <;> exact h1

theorem positionStep_count (entries : Entries) (it : Iter) :
    (positionStep entries it).count_ = it.count_ := by
  have h1 := getIterator_count entries it
  unfold positionStep
  dsimp only
  split <;> exact h1

theorem read_statics (entries : Entries) (it : Iter) :
    (read entries it).1.statics = it.statics := by
  have h1 := positionStep_statics entries it
  unfold read
  dsimp only
  split
  · exact h1
  · split <;> split <;> exact h1

theorem positionStep_limit (entries : Entries) (it : Iter) :
    (positionStep entries it).limit_ = it.limit_ :=
  congrArg Statics.limit_ (positionStep_statics entries it)

theorem positionStep_end (entries : Entries) (it : Iter) :
    (positionStep entries it).end_ = it.end_ :=
  congrArg Statics.end_ (positionStep_statics entries it)

theorem positionStep_reverse (entries : Entries) (it : Iter) :
    (positionStep entries it).reverse_ = it.reverse_ :=
  congrArg Statics.reverse_ (positionStep_statics entries it)

theorem read_landed (entries : Entries) (it : Iter) :
    (read entries it).1.landed_ = it.landed_ :=
  congrArg Statics.landed_ (read_statics entries it)

theorem read_hwm (entries : Entries) (it : Iter) :
    (read entries it).1.highWaterMark_ = it.highWaterMark_ :=
  congrArg Statics.highWaterMark_ (read_statics entries it)

theorem read_limit (entries : Entries) (it : Iter) :
    (read entries it).1.limit_ = it.limit_ :=
  congrArg Statics.limit_ (read_statics entries it)

/-- The acceptance clauses depend only on the scan-static fields. -/
theorem passEnd_eq_of_statics {a b : Iter} (h : a.statics = b.statics) (k : Bytes) :
    passEnd a k = passEnd b k := by
  have he : a.end_ = b.end_ := congrArg Statics.end_ h
  have hr : a.reverse_ = b.reverse_ := congrArg Statics.reverse_ h
  unfold passEnd
  rw [he, hr]

theorem passLtLte_eq_of_statics {a b : Iter} (h : a.statics = b.statics) (k : Bytes) :
    passLtLte a k = passLtLte b k := by
  have h1 : a.lt_ = b.lt_ := congrArg Statics.lt_ h
  have h2 : a.lte_ = b.lte_ := congrArg Statics.lte_ h
  unfold passLtLte
  rw [h1, h2]

theorem passGtGte_eq_of_statics {a b : Iter} (h : a.statics = b.statics) (k : Bytes) :
    passGtGte a k = passGtGte b k := by
  have h1 : a.gt_ = b.gt_ := congrArg Statics.gt_ h
  have h2 : a.gte_ = b.gte_ := congrArg Statics.gte_ h
  unfold passGtGte
  rw [h1, h2]

/-- With a non-negative limit, an emitting read counts exactly one
position and stays within the limit. -/
theorem read_emit_count (entries : Entries) (it it' : Iter) (p : Bytes × Bytes)
    (h : read entries it = (it', some p)) (hl : 0 ≤ it.limit_) :
    it'.count_ = it.count_ + 1 ∧ it'.count_ ≤ it.limit_ := by
  have hlim := positionStep_limit entries it
  have hcnt := positionStep_count entries it
  unfold read at h
  dsimp only at h
  split at h
  · exact absurd (congrArg Prod.snd h) (by simp)
  · split at h
    · omega
    · split at h
      · rename_i hguard
        obtain ⟨hd, -, -, -⟩ := hguard
        simp only [decide_eq_true_eq] at hd
        have h1 := congrArg Prod.fst h
        dsimp only at h1
        rw [← h1]
        dsimp only
        omega
      · exact absurd (congrArg Prod.snd h) (by simp)

/-- A non-emitting read never decreases the lifetime count and counts
at most one position. -/
theorem read_noemit_count (entries : Entries) (it it' : Iter)
    (h : read entries it = (it', none)) :
    it.count_ ≤ it'.count_ ∧ it'.count_ ≤ it.count_ + 1 := by
  have hcnt := positionStep_count entries it
  unfold read at h
  dsimp only at h
  split at h
  · have h1 := congrArg Prod.fst h
    dsimp only at h1
    rw [← h1]
    omega
  · split at h
    · split at h
      · exact absurd (congrArg Prod.snd h) (by simp)
      · have h1 := congrArg Prod.fst h
        dsimp only at h1
        rw [← h1]
        omega
    · split at h
      · exact absurd (congrArg Prod.snd h) (by simp)
      · have h1 := congrArg Prod.fst h
        dsimp only at h1
        rw [← h1]
        dsimp only
        omega

theorem passEnd_count_update (it : Iter) (c : Int) (k : Bytes) :
    passEnd { it with count_ := c } k = passEnd it k := rfl

theorem passLtLte_count_update (it : Iter) (c : Int) (k : Bytes) :
    passLtLte { it with count_ := c } k = passLtLte it k := rfl

theorem passGtGte_count_update (it : Iter) (c : Int) (k : Bytes) :
    passGtGte { it with count_ := c } k = passGtGte it k := rfl

/-- Once the lifetime count has reached the (non-negative) limit,
`Read` emits nothing. -/
theorem read_stop_over_limit (entries : Entries) (it : Iter)
    (h0 : 0 ≤ it.limit_) (h1 : it.limit_ ≤ it.count_) :
    (read entries it).2 = none := by
  rcases ho : (read entries it).2 with _ | p
  · rfl
  · exfalso
    have h : read entries it = ((read entries it).1, some p) := by rw [← ho]
    have hc := read_emit_count entries it (read entries it).1 p h h0
    omega

/-- An emitting read exposes the underlying entry: it sits at the
post-advance position and passes every acceptance clause, and the
emitted pair is its key/value filtered through `keys_` / `values_`. -/
theorem read_emit_passes (entries : Entries) (it it' : Iter) (p : Bytes × Bytes)
    (h : read entries it = (it', some p)) :
    ∃ k v, entryAt entries (positionStep entries it).pos = some (k, v) ∧
      passEnd it k = true ∧ passLtLte it k = true ∧ passGtGte it k = true ∧
      p = ((if it.keys_ then k else []), (if it.values_ then v else [])) := by
  have hs := positionStep_statics entries it
  have hkeys : (positionStep entries it).keys_ = it.keys_ :=
    congrArg Statics.keys_ hs
  have hvals : (positionStep entries it).values_ = it.values_ :=
    congrArg Statics.values_ hs
  unfold read at h
  dsimp only at h
  split at h
  · exact absurd (congrArg Prod.snd h) (by simp)
  · rename_i k v heq
    refine ⟨k, v, heq, ?_⟩
    split at h
    · split at h
      · rename_i hguard
        obtain ⟨-, h1, h2, h3⟩ := hguard
        rw [passEnd_eq_of_statics hs] at h1
        rw [passLtLte_eq_of_statics hs] at h2
        rw [passGtGte_eq_of_statics hs] at h3
        have hp := congrArg Prod.snd h
        dsimp only at hp
        rw [hkeys, hvals] at hp
        exact ⟨h1, h2, h3, (Option.some_inj.mp hp).symm⟩
      · exact absurd (congrArg Prod.snd h) (by simp)
    · split at h
      · rename_i hguard
        obtain ⟨-, h1, h2, h3⟩ := hguard
        rw [passEnd_count_update, passEnd_eq_of_statics hs] at h1
        rw [passLtLte_count_update, passLtLte_eq_of_statics hs] at h2
        rw [passGtGte_count_update, passGtGte_eq_of_statics hs] at h3
        have hp := congrArg Prod.snd h
        dsimp only at hp
        rw [hkeys, hvals] at hp
        exact ⟨h1, h2, h3, (Option.some_inj.mp hp).symm⟩
      · exact absurd (congrArg Prod.snd h) (by simp)

/-- A failing acceptance clause suppresses emission: when the entry at
the post-advance position fails end, lt/lte or gt/gte, `Read` returns
nothing. -/
theorem read_reject_of_fail (entries : Entries) (it : Iter) (k v : Bytes)
    (hk : entryAt entries (positionStep entries it).pos = some (k, v))
    (hfail : passEnd it k = false ∨ passLtLte it k = false ∨ passGtGte it k = false) :
    (read entries it).2 = none := by
  have hs := positionStep_statics entries it
  unfold read
  dsimp only
  rw [hk]
  dsimp only
  split
  · split
    · rename_i hguard
      obtain ⟨-, h1, h2, h3⟩ := hguard
      rw [passEnd_eq_of_statics hs] at h1
      rw [passLtLte_eq_of_statics hs] at h2
      rw [passGtGte_eq_of_statics hs] at h3
      rcases hfail with hf | hf | hf <;> simp_all
    · rfl
  · split
    · rename_i hguard
      obtain ⟨-, h1, h2, h3⟩ := hguard
      rw [passEnd_count_update, passEnd_eq_of_statics hs] at h1
      rw [passLtLte_count_update, passLtLte_eq_of_statics hs] at h2
      rw [passGtGte_count_update, passGtGte_eq_of_statics hs] at h3
      rcases hfail with hf | hf | hf <;> simp_all
    · rfl

/-- A not-yet-landed cursor's first emitted pair short-circuits the
batch loop: it is returned alone with `ok = true`. -/
theorem loop_first_pair (entries : Entries) (fuel size : Nat)
    (acc : List (Bytes × Bytes)) (it it' : Iter) (k v : Bytes)
    (h0 : it.landed_ = false) (hr : read entries it = (it', some (k, v))) :
    iteratorNextLoop entries (fuel + 1) it size acc =
      ({ it' with landed_ := true }, acc ++ [(k, v)], true) := by
  have hl' : it'.landed_ = false := by
    have hx := read_landed entries it
    rw [hr] at hx
    rw [hx, h0]
  unfold iteratorNextLoop
  rw [hr]
  dsimp only
  rw [hl']
  simp

/-- Once landed, a batch whose remaining range fits inside the byte
budget runs to exhaustion and collects the whole remaining range,
reporting `ok = false`. -/
theorem loop_exhausts (entries : Entries) :
    ∀ (fuel : Nat) (it : Iter) (size : Nat) (acc : List (Bytes × Bytes)),
      it.landed_ = true →
      size + totalSize (readSeq entries fuel it) ≤ it.highWaterMark_ →
      iteratorNextLoop entries fuel it size acc =
        (readEndIter entries fuel it, acc ++ readSeq entries fuel it, false) := by
  intro fuel
  induction fuel with
  | zero =>
    intro it size acc _ _
    simp [iteratorNextLoop, readEndIter, readSeq]
  | succ n ih =>
    intro it size acc h1 h2
    rcases hr : read entries it with ⟨it', op⟩
    rcases op with _ | ⟨k, v⟩
    · unfold iteratorNextLoop readEndIter readSeq
      rw [hr]
      simp
    · have hl' : it'.landed_ = true := by
        have hx := read_landed entries it
        rw [hr] at hx
        rw [hx, h1]
      have hw' : it'.highWaterMark_ = it.highWaterMark_ := by
        have hx := read_hwm entries it
        rw [hr] at hx
        exact hx
      have hseq : readSeq entries (n + 1) it = (k, v) :: readSeq entries n it' := by
        conv_lhs => unfold readSeq
        rw [hr]
      have hend : readEndIter entries (n + 1) it = readEndIter entries n it' := by
        conv_lhs => unfold readEndIter
        rw [hr]
      rw [hseq] at h2
      have hts : totalSize ((k, v) :: readSeq entries n it') =
          k.length + v.length + totalSize (readSeq entries n it') := by
        simp [totalSize]
      have hle : size + k.length + v.length ≤ it'.highWaterMark_ := by
        rw [hw']
        omega
      unfold iteratorNextLoop
      rw [hr]
      dsimp only
      rw [hl']
      rw [if_neg (by simp)]
      rw [if_neg (Nat.not_lt.mpr hle)]
      rw [ih it' (size + k.length + v.length) (acc ++ [(k, v)]) hl'
        (by rw [hw']; omega)]
      rw [hend, hseq]
      simp

/-- The batch loop never changes the cursor's limit. -/
theorem loop_limit (entries : Entries) :
    ∀ (fuel : Nat) (it : Iter) (size : Nat) (acc : List (Bytes × Bytes)),
      (iteratorNextLoop entries fuel it size acc).1.limit_ = it.limit_ := by
  intro fuel
  induction fuel with
  | zero => intro it size acc; rfl
  | succ n ih =>
    intro it size acc
    rcases hr : read entries it with ⟨it', op⟩
    have hx := read_limit entries it
    rw [hr] at hx
    rcases op with _ | ⟨k, v⟩
    · unfold iteratorNextLoop
      rw [hr]
      exact hx
    · unfold iteratorNextLoop
      rw [hr]
      dsimp only
      split
      · exact hx
      · split
        · exact hx
        · rw [ih it' _ _]
          exact hx

/-- With a non-negative limit, one batch emits at most the outstanding
budget `limit - count` of pairs. -/
theorem loop_len_bound (entries : Entries) :
    ∀ (fuel : Nat) (it : Iter) (size : Nat) (acc : List (Bytes × Bytes)),
      0 ≤ it.limit_ →
      ((iteratorNextLoop entries fuel it size acc).2.1.length : Int) ≤
        acc.length + max (it.limit_ - it.count_) 0 := by
  intro fuel
  induction fuel with
  | zero =>
    intro it size acc _
    exact le_add_of_nonneg_right (le_max_right _ _)
  | succ n ih =>
    intro it size acc h
    rcases hr : read entries it with ⟨it', op⟩
    rcases op with _ | ⟨k, v⟩
    · unfold iteratorNextLoop
      rw [hr]
      exact le_add_of_nonneg_right (le_max_right _ _)
    · obtain ⟨hc1, hc2⟩ := read_emit_count entries it it' (k, v) hr h
      have hlim : it'.limit_ = it.limit_ := by
        have hx := read_limit entries it
        rw [hr] at hx
        exact hx
      have hmax : max (it.limit_ - it.count_) (0 : Int) = it.limit_ - it.count_ :=
        max_eq_left (by omega)
      unfold iteratorNextLoop
      rw [hr]
      dsimp only
      split
      · simp only [List.length_append, List.length_cons, List.length_nil]
        rw [hmax]
        push_cast
        omega
      · split
        · simp only [List.length_append, List.length_cons, List.length_nil]
          rw [hmax]
          push_cast
          omega
        · have hih := ih it' (size + k.length + v.length) (acc ++ [(k, v)])
            (by rw [hlim]; exact h)
          rw [hlim, hc1] at hih
          have hmax2 : max (it.limit_ - (it.count_ + 1)) (0 : Int) =
              it.limit_ - (it.count_ + 1) := max_eq_left (by omega)
          rw [hmax2] at hih
          rw [hmax]
          simp only [List.length_append, List.length_cons, List.length_nil] at hih ⊢
          push_cast at hih ⊢
          omega

/-- With a non-negative limit, the count grows at least as fast as the
batch: each emission consumes one unit of the lifetime count. -/
theorem loop_count_bound (entries : Entries) :
    ∀ (fuel : Nat) (it : Iter) (size : Nat) (acc : List (Bytes × Bytes)),
      0 ≤ it.limit_ →
      it.count_ - (acc.length : Int) ≤
        (iteratorNextLoop entries fuel it size acc).1.count_ -
          ((iteratorNextLoop entries fuel it size acc).2.1.length : Int) := by
  intro fuel
  induction fuel with
  | zero => intro it size acc _; simp [iteratorNextLoop]
  | succ n ih =>
    intro it size acc h
    rcases hr : read entries it with ⟨it', op⟩
    rcases op with _ | ⟨k, v⟩
    · obtain ⟨hc1, hc2⟩ := read_noemit_count entries it it' hr
      unfold iteratorNextLoop
      rw [hr]
      dsimp only
      omega
    · obtain ⟨hc1, hc2⟩ := read_emit_count entries it it' (k, v) hr h
      have hlim : it'.limit_ = it.limit_ := by
        have hx := read_limit entries it
        rw [hr] at hx
        exact hx
      unfold iteratorNextLoop
      rw [hr]
      dsimp only
      split
      · simp only [List.length_append, List.length_cons, List.length_nil]
        push_cast
        omega
      · split
        · simp only [List.length_append, List.length_cons, List.length_nil]
          push_cast
          omega
        · have hih := ih it' (size + k.length + v.length) (acc ++ [(k, v)])
            (by rw [hlim]; exact h)
          simp only [List.length_append, List.length_cons, List.length_nil] at hih
          push_cast at hih
          omega

theorem drain_max_arith (L c c1 len1 rest : Int)
    (hA : len1 ≤ max (L - c) 0) (hB : c + len1 ≤ c1)
    (hI : rest ≤ max (L - c1) 0) (hrest : 0 ≤ rest) (hlen1 : 0 ≤ len1) :
    len1 + rest ≤ max (L - c) 0 := by
  rcases le_total (L - c) 0 with h0 | h0
  · rw [max_eq_right h0] at hA ⊢
    rcases le_total (L - c1) 0 with h1 | h1
    · rw [max_eq_right h1] at hI
      omega
    · rw [max_eq_left h1] at hI
      omega
  · rw [max_eq_left h0] at hA ⊢
    rcases le_total (L - c1) 0 with h1 | h1
    · rw [max_eq_right h1] at hI
      omega
    · rw [max_eq_left h1] at hI
      omega

/-- With a non-negative limit, the whole cursor lifetime emits at most
the outstanding budget `limit - count` of pairs. -/
theorem drain_len_bound (entries : Entries) :
    ∀ (fuel : Nat) (it : Iter), 0 ≤ it.limit_ →
      ((drain entries fuel it).length : Int) ≤ max (it.limit_ - it.count_) 0 := by
  intro fuel
  induction fuel with
  | zero =>
    intro it _
    simp [drain]
  | succ n ih =>
    intro it h
    have hA := loop_len_bound entries (entries.length + 2) it 0 [] h
    have hB := loop_count_bound entries (entries.length + 2) it 0 [] h
    have hC := loop_limit entries (entries.length + 2) it 0 []
    unfold drain
    dsimp only
    split
    · have hih := ih (nextResult entries it).1 (by rw [nextResult, hC]; exact h)
      rw [nextResult] at hih ⊢
      simp only [List.length_append, List.length_nil] at hA hB ⊢
      push_cast at hA hB hih ⊢
      rw [hC] at hih
      exact drain_max_arith it.limit_ it.count_
        (iteratorNextLoop entries (entries.length + 2) it 0 []).1.count_ _ _
        (by omega) (by omega) hih (by positivity) (by positivity)
    · rw [nextResult]
      simp only [List.length_append, List.length_nil] at hA
      push_cast at hA ⊢
      omega

/-- Once landed, a pair that pushes the accumulated byte length over
the budget is still included, and the batch returns right after it
with `ok = true`. -/
theorem loop_hwm_stop (entries : Entries) (fuel size : Nat)
    (acc : List (Bytes × Bytes)) (it it' : Iter) (k v : Bytes)
    (h0 : it.landed_ = true) (hr : read entries it = (it', some (k, v)))
    (hsz : size + k.length + v.length > it.highWaterMark_) :
    iteratorNextLoop entries (fuel + 1) it size acc = (it', acc ++ [(k, v)], true) := by
  have hl' : it'.landed_ = true := by
    have hx := read_landed entries it
    rw [hr] at hx
    rw [hx, h0]
  have hw' : it'.highWaterMark_ = it.highWaterMark_ := by
    have hx := read_hwm entries it
    rw [hr] at hx
    exact hx
  unfold iteratorNextLoop
  rw [hr]
  dsimp only
  rw [hl']
  rw [if_neg (by simp)]
  rw [if_pos (by rw [hw']; exact hsz)]

/-- Argument-swapped characterization of a `.gt` comparison. -/
theorem bcmp_swap_gt (a b : Bytes) : bcmp a b = .gt ↔ bcmp b a = .lt := by
  rw [bcmp_swap a b]
  cases bcmp a b <;> simp [Ordering.swap]

/-- Argument-swapped characterization of a `.lt` comparison. -/
theorem bcmp_swap_lt (a b : Bytes) : bcmp a b = .lt ↔ bcmp b a = .gt := by
  rw [bcmp_swap a b]
  cases bcmp a b <;> simp [Ordering.swap]

/-! ## Shared concrete examples -/

/-- A six-entry snapshot: keys "a".."f" (bytes 97..102), one-byte
values. -/
def exEntries : Entries :=
  [([97], [10]), ([98], [11]), ([99], [12]),
   ([100], [13]), ([101], [14]), ([102], [15])]

/-- A two-entry snapshot: keys "a", "b". -/
def exEntries2 : Entries := [([97], [10]), ([98], [11])]

/-- Cursor options with every property at the source's default
(`NAPI_METHOD(iterator)`). -/
def baseOpts : CursorOptions :=
  { reverse := false, keys := true, values := true, fillCache := false,
    keyAsBuffer := true, valueAsBuffer := true, limit := -1,
    highWaterMark := 16 * 1024,
    start := none, end_ := none, lt := none, lte := none, gt := none, gte := none }

/-! ## Claim theorems -/

/-- C1: the claim requires `close()` to store the close Task as the
pending-close Task and defer it while cursor ids are registered.  The
code violates this: `db_close` queues the `CloseWorker` unconditionally
and never fills `pendingCloseWorker_`, so with iterator id 0 still
registered the close Task is queued at once (registry non-empty,
pending slot still empty); the deferral logic in
`Database::ReleaseIterator` is unreachable because nothing ever sets
the slot — `releaseIterator` fires a pending worker only when one was
stored. -/
theorem dbClose_ignores_registered_iterators :
    dbCloseCall { iterators := [0], pendingClose := false, closeQueued := false } =
      { iterators := [0], pendingClose := false, closeQueued := true } ∧
    releaseIterator { iterators := [0], pendingClose := true, closeQueued := false } 0 =
      { iterators := [], pendingClose := false, closeQueued := true } := by
  constructor <;> rfl

/-- C4: a get on an absent key completes with an error built from the
engine's NotFound status; every non-ok status completes as an error
carrying the engine's message text verbatim as a suffix; and the
NotFound error text differs from the error text of every other failure
kind, keeping NotFound distinguishable. -/
theorem get_notfound_distinct :
    (∀ (entries : Entries) (key : Bytes) (asBuffer : Bool),
      entries.find? (fun e => e.1 = key) = none →
      getComplete entries key asBuffer =
        .error (statusToString (.notFound []))) ∧
    (∀ (s : Status) (x : JsVal), s.isOk = false →
      workerComplete s x = .error (statusToString s) ∧
      s.msgText <:+ statusToString s) ∧
    (∀ (m : List Char) (s : Status), s.isOk = false →
      (∀ m', s ≠ .notFound m') →
      statusToString (.notFound m) ≠ statusToString s) := by
  refine ⟨?_, ?_, ?_⟩
  · intro entries key asBuffer h
    unfold getComplete engineGet
    rw [h]
    rfl
  · intro s x h
    cases s with
    | ok => simp [Status.isOk] at h
    | notFound m =>
      exact ⟨rfl, List.suffix_append _ _⟩
    | corruption m =>
      exact ⟨rfl, List.suffix_append _ _⟩
    | notSupported m =>
      exact ⟨rfl, List.suffix_append _ _⟩
    | invalidArgument m =>
      exact ⟨rfl, List.suffix_append _ _⟩
    | ioError m =>
      exact ⟨rfl, List.suffix_append _ _⟩
  · intro m s h hnf hEq
    have h4 := congrArg (List.take 4) hEq
    cases s with
    | ok => simp [Status.isOk] at h
    | notFound m' => exact hnf m' rfl
    | corruption m' =>
      rw [statusToString, statusToString,
        List.take_append_of_le_length (by decide),
        List.take_append_of_le_length (by decide)] at h4
      exact absurd h4 (by decide)
    | notSupported m' =>
      rw [statusToString, statusToString,
        List.take_append_of_le_length (by decide),
        List.take_append_of_le_length (by decide)] at h4
      exact absurd h4 (by decide)
    | invalidArgument m' =>
      rw [statusToString, statusToString,
        List.take_append_of_le_length (by decide),
        List.take_append_of_le_length (by decide)] at h4
      exact absurd h4 (by decide)
    | ioError m' =>
      rw [statusToString, statusToString,
        List.take_append_of_le_length (by decide),
        List.take_append_of_le_length (by decide)] at h4
      exact absurd h4 (by decide)

/-- Witness for C4 at concrete inputs: key "a" is absent from the
empty store, a corruption failure carries its message, and its text
differs from the NotFound text. -/
theorem get_notfound_distinct_witness :
    getComplete [] [97] true = .error (statusToString (.notFound [])) ∧
    workerComplete (.corruption ['x']) JsVal.empty =
      .error (statusToString (.corruption ['x'])) ∧
    statusToString (.notFound []) ≠ statusToString (.corruption ['x']) := by
  refine ⟨get_notfound_distinct.1 [] [97] true (by decide), ?_, ?_⟩
  · exact (get_notfound_distinct.2.1 (.corruption ['x']) JsVal.empty (by decide)).1
  · exact get_notfound_distinct.2.2 [] (.corruption ['x']) (by decide)
      (fun m' h => by cases h)

/-- A cursor whose end was requested while an advance Task is in
flight: ended, nexting, end worker parked; its engine iterator stands
past the range, so the in-flight batch reports exhaustion. -/
def exDeferredEnd : Iter :=
  { makeIterator baseOpts with
      hasDbIter := true, pos := none, landed_ := true,
      nexting_ := true, ended_ := true, endWorkerStored := true }

/-- C5 counterexample: the stored end Task is NOT queued when the
in-flight advance's completion is delivered with an error.  With the
cursor's engine iterator exhausted and failed (corruption status),
`NextWorker::DoExecute` stores the non-ok `IteratorStatus`, so
`DoComplete` delivers the completion through its error branch and the
local callback (`CheckEndCallback`) never runs: no end worker is
queued, the parked worker stays stored and `nexting_` stays set —
refuting "the stored end Task is queued automatically at the moment
that advance's completion has been delivered". -/
theorem end_not_queued_on_errored_advance :
    exDeferredEnd.endWorkerStored = true ∧
    exDeferredEnd.nexting_ = true ∧
    (nextWorkerRun exEntries2 (.corruption ['x']) exDeferredEnd).2 = false ∧
    (nextWorkerRun exEntries2 (.corruption ['x']) exDeferredEnd).1.endWorkerStored = true ∧
    (nextWorkerRun exEntries2 (.corruption ['x']) exDeferredEnd).1.nexting_ = true := by
  refine ⟨rfl, rfl, by decide, by decide, by decide⟩

/-- C5 (amended): ending a cursor while an advance Task is in flight
parks the end worker without queueing it, the whole cursor state
otherwise untouched (in particular the snapshot stays unreleased); a
SUCCESSFULLY delivered advance completion — an ok Task status, the
only path into `HandleOKCallback` and hence into `CheckEndCallback` —
clears `nexting_` and queues the parked worker at that moment; an
advance completion delivered with an error status runs no local
callback and leaves the cursor untouched, the parked worker unqueued
and `nexting_` still set; ending with no advance in flight queues the
end worker immediately. -/
theorem end_deferred_until_ok_completion :
    (∀ it : Iter, it.ended_ = false → it.nexting_ = true →
      iteratorEndCall it =
        ⟨{ it with ended_ := true, endWorkerStored := true }, true, false⟩) ∧
    (∀ (s : Status) (it : Iter), s.isOk = true → it.endWorkerStored = true →
      nextWorkerDoComplete s it =
        ({ it with nexting_ := false, endWorkerStored := false }, true)) ∧
    (∀ (s : Status) (it : Iter), s.isOk = false →
      nextWorkerDoComplete s it = (it, false)) ∧
    (∀ it : Iter, it.ended_ = false → it.nexting_ = false →
      iteratorEndCall it = ⟨{ it with ended_ := true }, true, true⟩) := by
  refine ⟨?_, ?_, ?_, ?_⟩
  · intro it h1 h2
    simp [iteratorEndCall, h1, h2]
  · intro s it hs h1
    simp [nextWorkerDoComplete, hs, checkEndCallback, h1]
  · intro s it hs
    simp [nextWorkerDoComplete, hs]
  · intro it h1 h2
    simp [iteratorEndCall, h1, h2]

/-- Witness for C5's amended theorem: a live cursor with an advance
in flight defers the end worker; an ok completion delivery queues the
parked worker; an errored delivery leaves the deferred state alone; a
live idle cursor queues the end worker immediately. -/
theorem end_deferred_until_ok_completion_witness :
    iteratorEndCall { makeIterator baseOpts with nexting_ := true } =
      ⟨{ makeIterator baseOpts with nexting_ := true, ended_ := true, endWorkerStored := true },
        true, false⟩ ∧
    nextWorkerDoComplete .ok exDeferredEnd =
      ({ exDeferredEnd with nexting_ := false, endWorkerStored := false }, true) ∧
    nextWorkerDoComplete (.corruption ['x']) exDeferredEnd = (exDeferredEnd, false) ∧
    iteratorEndCall (makeIterator baseOpts) =
      ⟨{ makeIterator baseOpts with ended_ := true }, true, true⟩ := by
  refine ⟨?_, ?_, ?_, ?_⟩
  · exact end_deferred_until_ok_completion.1 _ rfl rfl
  · exact end_deferred_until_ok_completion.2.1 .ok exDeferredEnd rfl rfl
  · exact end_deferred_until_ok_completion.2.2.1 (.corruption ['x']) exDeferredEnd rfl
  · exact end_deferred_until_ok_completion.2.2.2 _ rfl rfl

/-- C7: an advance request on an ended cursor is a silent no-op: the
state is unchanged, no worker is created or queued, and no error is
signalled (the source returns undefined without invoking the
callback). -/
theorem next_after_ended_noop :
    ∀ it : Iter, it.ended_ = true → iteratorNextCall it = ⟨it, false, false⟩ := by
  intro it h
  simp [iteratorNextCall, h]

/-- Witness for C7 on a concrete ended cursor. -/
theorem next_after_ended_noop_witness :
    iteratorNextCall { makeIterator baseOpts with ended_ := true } =
      ⟨{ makeIterator baseOpts with ended_ := true }, false, false⟩ :=
  next_after_ended_noop _ rfl

/-- C8: after any end call the cursor is ended, and an end call on the
resulting cursor is a no-op: the state is returned unchanged, no
second end worker is created and none is queued — so every later end
request is equally inert. -/
theorem end_idempotent :
    ∀ it : Iter,
      (iteratorEndCall it).it.ended_ = true ∧
      iteratorEndCall (iteratorEndCall it).it =
        ⟨(iteratorEndCall it).it, false, false⟩ := by
  intro it
  unfold iteratorEndCall
  by_cases h1 : it.ended_ <;> by_cases h2 : it.nexting_ <;> simp [h1, h2]

theorem extractBound_none : extractBound none = none := rfl

/-- C9: a `start`/`end`/`lt`/`lte`/`gt`/`gte` option whose value is
not a string or buffer, or has length zero, leaves the constructed
cursor identical to one built with the option absent: it imposes no
bound. -/
theorem invalid_bound_option_ignored :
    ∀ (o : CursorOptions) (v : NapiValue),
      isStringOrBuffer v = false ∨ stringOrBufferLength v = 0 →
      makeIterator { o with start := some v } = makeIterator { o with start := none } ∧
      makeIterator { o with end_ := some v } = makeIterator { o with end_ := none } ∧
      makeIterator { o with lt := some v } = makeIterator { o with lt := none } ∧
      makeIterator { o with lte := some v } = makeIterator { o with lte := none } ∧
      makeIterator { o with gt := some v } = makeIterator { o with gt := none } ∧
      makeIterator { o with gte := some v } = makeIterator { o with gte := none } := by
  intro o v h
  have hv : extractBound (some v) = none := by
    unfold extractBound
    rcases h with h | h <;> cases v <;> simp_all [isStringOrBuffer, stringOrBufferLength]
  refine ⟨?_, ?_, ?_, ?_, ?_, ?_⟩ <;>
    simp [makeIterator, resolveStart, hv, extractBound_none]

/-- Witness for C9: a numeric (non string/buffer) value and an empty
string are both ignored for every bound option. -/
theorem invalid_bound_option_ignored_witness :
    (makeIterator { baseOpts with lt := some .other } =
      makeIterator { baseOpts with lt := none }) ∧
    (makeIterator { baseOpts with gte := some (.str []) } =
      makeIterator { baseOpts with gte := none }) := by
  constructor
  · exact (invalid_bound_option_ignored baseOpts .other (Or.inl rfl)).2.2.1
  · exact (invalid_bound_option_ignored baseOpts (.str []) (Or.inr rfl)).2.2.2.2.2

/-- A cursor over a two-entry snapshot that has already produced its
first pair (positioned on the first entry). -/
def exLanded : Iter :=
  { makeIterator baseOpts with landed_ := true, hasDbIter := true, pos := some 0 }

/-- The baseline options with a zero byte budget. -/
def tinyOpts : CursorOptions := { baseOpts with highWaterMark := 0 }

/-- Same landed cursor, with a zero byte budget. -/
def exLandedTiny : Iter :=
  { makeIterator tinyOpts with landed_ := true, hasDbIter := true, pos := some 0 }

/-- C2 counterexample: with `highWaterMark` (1000) far above the
total byte length (4) of the whole two-entry range, the first advance
call on a fresh cursor returns only one of the two pairs and reports
the exhausted flag false — not the entire range with the flag true —
because the immediate return is keyed to the cursor-lifetime
`landed_` flag, not to "the very first emitted pair of that call". -/
theorem advance_whole_range_claim_refuted :
    totalSize exEntries2 ≤
      (makeIterator { baseOpts with highWaterMark := 1000 }).highWaterMark_ ∧
    (nextResult exEntries2 (makeIterator { baseOpts with highWaterMark := 1000 })).2.1 =
      [([97], [10])] ∧
    advanceExhaustedFlag
      (nextResult exEntries2 (makeIterator { baseOpts with highWaterMark := 1000 })) = false ∧
    exEntries2.length = 2 := by
  refine ⟨by decide, by decide, by decide, by decide⟩

/-- C2 (amended): an advance call accumulates pairs until (a) the
cursor's first LIFETIME pair has just been emitted (`landed_` was
still false) — that pair is returned immediately and alone, (b) the
accumulated key+value byte length exceeds `highWaterMark` — the
overflowing pair is included and the call returns, or (c) the range
is exhausted; consequently once the cursor has landed, an advance
call whose remaining range fits within `highWaterMark` returns the
entire remaining range with the exhausted flag true. -/
theorem advance_batching_landed :
    (∀ (entries : Entries) (fuel size : Nat) (acc : List (Bytes × Bytes))
        (it it' : Iter) (k v : Bytes),
        it.landed_ = false → read entries it = (it', some (k, v)) →
        iteratorNextLoop entries (fuel + 1) it size acc =
          ({ it' with landed_ := true }, acc ++ [(k, v)], true)) ∧
    (∀ (entries : Entries) (fuel size : Nat) (acc : List (Bytes × Bytes))
        (it it' : Iter) (k v : Bytes),
        it.landed_ = true → read entries it = (it', some (k, v)) →
        size + k.length + v.length > it.highWaterMark_ →
        iteratorNextLoop entries (fuel + 1) it size acc = (it', acc ++ [(k, v)], true)) ∧
    (∀ (entries : Entries) (it : Iter),
        it.landed_ = true →
        totalSize (readSeq entries (entries.length + 2) it) ≤ it.highWaterMark_ →
        nextResult entries it =
          (readEndIter entries (entries.length + 2) it,
           readSeq entries (entries.length + 2) it, false) ∧
        advanceExhaustedFlag (nextResult entries it) = true) := by
  refine ⟨?_, ?_, ?_⟩
  · intro entries fuel size acc it it' k v h0 hr
    exact loop_first_pair entries fuel size acc it it' k v h0 hr
  · intro entries fuel size acc it it' k v h0 hr hsz
    exact loop_hwm_stop entries fuel size acc it it' k v h0 hr hsz
  · intro entries it h1 h2
    have hx := loop_exhausts entries (entries.length + 2) it 0 [] h1 (by omega)
    constructor
    · rw [nextResult, hx]
      simp
    · rw [advanceExhaustedFlag, nextResult, hx]
      rfl

/-- Witness for C2's amended theorem at concrete cursors over the
two-entry snapshot: the fresh cursor's first advance returns one pair
immediately; a landed cursor with a zero budget returns the
overflowing pair alone; a landed cursor with the default budget
drains the remaining range reporting exhaustion. -/
theorem advance_batching_landed_witness :
    iteratorNextLoop exEntries2 3 (makeIterator baseOpts) 0 [] =
      ({ (read exEntries2 (makeIterator baseOpts)).1 with landed_ := true },
        [([97], [10])], true) ∧
    iteratorNextLoop exEntries2 3 exLandedTiny 0 [] =
      ((read exEntries2 exLandedTiny).1, [([98], [11])], true) ∧
    nextResult exEntries2 exLanded =
      (readEndIter exEntries2 4 exLanded, readSeq exEntries2 4 exLanded, false) := by
  refine ⟨?_, ?_, ?_⟩
  · exact advance_batching_landed.1 exEntries2 2 0 [] _ _ [97] [10] rfl (by decide)
  · exact advance_batching_landed.2.1 exEntries2 2 0 [] _ _ [98] [11] rfl (by decide)
      (by decide)
  · exact (advance_batching_landed.2.2 exEntries2 exLanded rfl (by decide)).1

/-- The baseline options with end = "a". -/
def endAOpts : CursorOptions := { baseOpts with end_ := some (.str [97]) }

/-- A landed cursor with end = "a", positioned on the first entry. -/
def exLandedEndA : Iter :=
  { makeIterator endAOpts with landed_ := true, hasDbIter := true, pos := some 0 }

/-- C3 counterexample: a forward scan over keys "a","b" with
end = "a": the code emits key "a" — equal to the bound — before
stopping, while the claim's "stop once key ≥ end" demands that no
key ≥ "a" be emitted. -/
theorem end_bound_exclusive_claim_refuted :
    (makeIterator endAOpts).end_ = some [97] ∧
    (makeIterator endAOpts).reverse_ = false ∧
    ¬ (∀ p ∈ drain exEntries2 4 (makeIterator endAOpts), bcmp p.1 [97] = .lt) := by
  refine ⟨rfl, rfl, by decide⟩

/-- C3 (amended): the `end` bound is inclusive.  The end clause
passes exactly the keys not strictly beyond `end`: on a forward scan
keys k with k ≤ end (the scan rejects once k > end), on a reverse
scan keys k with k ≥ end (rejects once k < end); a key failing the
clause at the post-advance position suppresses emission, and every
emitted pair passed the clause. -/
theorem end_bound_inclusive :
    (∀ (it : Iter) (e k : Bytes), it.end_ = some e →
      (it.reverse_ = false → (passEnd it k = true ↔ bcmp k e ≠ .gt)) ∧
      (it.reverse_ = true → (passEnd it k = true ↔ bcmp k e ≠ .lt))) ∧
    (∀ (entries : Entries) (it : Iter) (k v : Bytes),
      entryAt entries (positionStep entries it).pos = some (k, v) →
      passEnd it k = false → (read entries it).2 = none) ∧
    (∀ (entries : Entries) (it it' : Iter) (p : Bytes × Bytes),
      read entries it = (it', some p) →
      ∃ k v, entryAt entries (positionStep entries it).pos = some (k, v) ∧
        passEnd it k = true ∧ p.1 = (if it.keys_ then k else [])) := by
  refine ⟨?_, ?_, ?_⟩
  · intro it e k he
    constructor
    · intro hr
      simp only [passEnd, he, hr, Bool.false_eq_true, if_false, decide_eq_true_eq]
      exact (not_congr (bcmp_swap_gt k e)).symm
    · intro hr
      simp only [passEnd, he, hr, if_true, decide_eq_true_eq]
      exact (not_congr (bcmp_swap_lt k e)).symm
  · intro entries it k v hk hf
    exact read_reject_of_fail entries it k v hk (Or.inl hf)
  · intro entries it it' p h
    obtain ⟨k, v, hk, h1, _, _, hp⟩ := read_emit_passes entries it it' p h
    exact ⟨k, v, hk, h1, by rw [hp]⟩

/-- Witness for C3's amended theorem at concrete inputs: the end
clause with end = "b" accepts key "b" on a forward scan; a landed
cursor with end = "a" positioned before "b" reads nothing further;
and the fresh end = "a" cursor's first read emits key "a". -/
theorem end_bound_inclusive_witness :
    (passEnd (makeIterator { baseOpts with end_ := some (.str [98]) }) [98] = true ↔
      bcmp [98] [98] ≠ .gt) ∧
    (read exEntries2 exLandedEndA).2 = none ∧
    (∃ k v, entryAt exEntries2
        (positionStep exEntries2 (makeIterator endAOpts)).pos = some (k, v) ∧
      passEnd (makeIterator endAOpts) k = true ∧
      (([97], [10]) : Bytes × Bytes).1 =
        (if (makeIterator endAOpts).keys_ then k else [])) := by
  refine ⟨?_, ?_, ?_⟩
  · exact (end_bound_inclusive.1 (makeIterator { baseOpts with end_ := some (.str [98]) })
      [98] [98] rfl).1 rfl
  · exact end_bound_inclusive.2.1 exEntries2 exLandedEndA [98] [11] (by decide) (by decide)
  · exact end_bound_inclusive.2.2 exEntries2 (makeIterator endAOpts)
      (read exEntries2 (makeIterator endAOpts)).1
      (([97], [10]) : Bytes × Bytes) (by decide)

/-- C6: with a non-negative limit the per-step read emits nothing
once the lifetime count has reached the limit; over the whole
lifetime at most `limit` pairs are emitted in total; and the concrete
forward scan over a..f with gte "b", lt "e", limit 2 yields exactly
b,c. -/
theorem limit_bounds_emission :
    (∀ (entries : Entries) (it : Iter),
      0 ≤ it.limit_ → it.limit_ ≤ it.count_ → (read entries it).2 = none) ∧
    (∀ (entries : Entries) (fuel : Nat) (it : Iter),
      0 ≤ it.limit_ → it.count_ = 0 →
      ((drain entries fuel it).length : Int) ≤ it.limit_) ∧
    drain exEntries 8
        (makeIterator
          { baseOpts with gte := some (.str [98]), lt := some (.str [101]), limit := 2 }) =
      [([98], [11]), ([99], [12])] := by
  refine ⟨?_, ?_, by decide⟩
  · intro entries it h0 h1
    exact read_stop_over_limit entries it h0 h1
  · intro entries fuel it h0 hc
    have hb := drain_len_bound entries fuel it h0
    rw [hc] at hb
    rw [sub_zero, max_eq_left h0] at hb
    exact hb

/-- Witness for C6 at concrete cursors: a cursor whose limit equals
its count reads nothing, and the bounded scan's lifetime output
length stays within its limit of 2. -/
theorem limit_bounds_emission_witness :
    (read exEntries2 (makeIterator { baseOpts with limit := 0 })).2 = none ∧
    ((drain exEntries 8
        (makeIterator
          { baseOpts with gte := some (.str [98]), lt := some (.str [101]), limit := 2 })).length :
      Int) ≤ 2 := by
  constructor
  · exact limit_bounds_emission.1 exEntries2 _ (by decide) (by decide)
  · exact limit_bounds_emission.2.1 exEntries 8 _ (by decide) rfl

theorem fillCell_eq_some (kb vb : Bool) (result : List (Bytes × Bytes))
    (arr : List JsVal) (idx : Nat) (k v : Bytes) (h : result[idx]? = some (k, v)) :
    fillCell kb vb result arr idx =
      (arr.set (2 * result.length - idx * 2 - 1) (mkReturnValue kb k)).set
        (2 * result.length - idx * 2 - 2) (mkReturnValue vb v) := by
  unfold fillCell
  rw [h]

theorem fillCell_length (kb vb : Bool) (result : List (Bytes × Bytes))
    (arr : List JsVal) (idx : Nat) :
    (fillCell kb vb result arr idx).length = arr.length := by
  unfold fillCell
  split
  · simp [List.length_set]
  · rfl

theorem fillLoop_length (kb vb : Bool) (result : List (Bytes × Bytes)) :
    ∀ (m : Nat) (arr : List JsVal),
      ((List.range m).foldl (fillCell kb vb result) arr).length = arr.length := by
  intro m
  induction m with
  | zero => intro arr; rfl
  | succ n ih =>
    intro arr
    rw [List.range_succ, List.foldl_append]
    simp only [List.foldl_cons, List.foldl_nil]
    rw [fillCell_length, ih]

/-- After the loop has processed indices `0..m-1`, each processed
pair's key and value sit at their target slots. -/
theorem fillLoop_get (kb vb : Bool) (result : List (Bytes × Bytes)) :
    ∀ (m : Nat) (arr : List JsVal), m ≤ result.length →
      arr.length = 2 * result.length →
      ∀ i k v, i < m → result[i]? = some (k, v) →
        ((List.range m).foldl (fillCell kb vb result) arr)[2 * result.length - i * 2 - 1]? =
          some (mkReturnValue kb k) ∧
        ((List.range m).foldl (fillCell kb vb result) arr)[2 * result.length - i * 2 - 2]? =
          some (mkReturnValue vb v) := by
  intro m
  induction m with
  | zero =>
    intro arr _ _ i k v hi
    exact absurd hi (Nat.not_lt_zero i)
  | succ n ih =>
    intro arr hm hlen i k v hi hkv
    rw [List.range_succ, List.foldl_append]
    simp only [List.foldl_cons, List.foldl_nil]
    have hBlen : ((List.range n).foldl (fillCell kb vb result) arr).length =
        2 * result.length := by
      rw [fillLoop_length]
      exact hlen
    have hn : n < result.length := hm
    rcases hrn : result[n]? with _ | ⟨kn, vn⟩
    · rw [List.getElem?_eq_getElem hn] at hrn
      cases hrn
    · rw [fillCell_eq_some kb vb result _ n kn vn hrn]
      rcases Nat.lt_succ_iff_lt_or_eq.mp hi with hilt | hieq
      · have hx := ih arr (by omega) hlen i k v hilt hkv
        rw [List.getElem?_set_ne (by omega), List.getElem?_set_ne (by omega),
            List.getElem?_set_ne (by omega), List.getElem?_set_ne (by omega)]
        exact hx
      · subst hieq
        rw [hkv] at hrn
        simp only [Option.some.injEq, Prod.mk.injEq] at hrn
        obtain ⟨hk, hv⟩ := hrn
        subst hk
        subst hv
        constructor
        · rw [List.getElem?_set_ne (by omega),
              List.getElem?_set_eq_of_lt _ (by omega)]
        · rw [List.getElem?_set_eq_of_lt _ (by simp [List.length_set]; omega)]

/-- C10: the completion array of a successful advance with n pairs
has length 2n and stores the pairs in reverse emission order: pair i
(0-based) has its key at index 2n−2i−1 and its value at 2n−2i−2, so
the first emitted pair's key is the last array element. -/
theorem advance_result_array_layout :
    ∀ (kb vb : Bool) (result : List (Bytes × Bytes)),
      (handleOKArray kb vb result).length = 2 * result.length ∧
      ∀ i k v, result[i]? = some (k, v) →
        (handleOKArray kb vb result)[2 * result.length - 2 * i - 1]? =
          some (mkReturnValue kb k) ∧
        (handleOKArray kb vb result)[2 * result.length - 2 * i - 2]? =
          some (mkReturnValue vb v) := by
  intro kb vb result
  constructor
  · rw [handleOKArray, fillLoop_length]
    simp
  · intro i k v h
    have hi : i < result.length := (List.getElem?_eq_some.mp h).1
    have hx := fillLoop_get kb vb result result.length
      (List.replicate (2 * result.length) JsVal.empty) le_rfl (by simp) i k v hi h
    rw [handleOKArray,
        show 2 * result.length - 2 * i - 1 = 2 * result.length - i * 2 - 1 by omega,
        show 2 * result.length - 2 * i - 2 = 2 * result.length - i * 2 - 2 by omega]
    exact hx

/-- Witness for C10 on a two-pair batch: array length 4, the first
pair's key at index 3 (the last element) and its value at index 2. -/
theorem advance_result_array_layout_witness :
    (handleOKArray true true [([1], [2]), ([3], [4])]).length = 4 ∧
    (handleOKArray true true [([1], [2]), ([3], [4])])[3]? = some (mkReturnValue true [1]) ∧
    (handleOKArray true true [([1], [2]), ([3], [4])])[2]? = some (mkReturnValue true [2]) := by
  refine ⟨(advance_result_array_layout true true [([1], [2]), ([3], [4])]).1, ?_, ?_⟩
  · exact ((advance_result_array_layout true true [([1], [2]), ([3], [4])]).2 0 [1] [2] rfl).1
  · exact ((advance_result_array_layout true true [([1], [2]), ([3], [4])]).2 0 [1] [2] rfl).2

end Leveldown
